import Mathlib

/-!
# Verification of the Archon memory subsystem

A shallow embedding of `src/memory` (the record model, the file-backed
provider, the MCP stub provider, and the provider registry/factory),
together with proofs of the specified properties.

Modelling conventions:
* JavaScript `Date` values are modelled by their millisecond value
  (`Int`, as returned by `Date.getTime()`); `JSON.stringify`/`new Date`
  round-trips a `Date` through an ISO-8601 string with millisecond
  precision, so serialisation is the identity on this model.
* The on-disk `memories.json` file is modelled by a `DiskFile` value:
  absent (`ENOENT`), unreadable/unparsable, or a parsed array of entries.
* A JS `Map` is modelled as a list of entries with unique ids, in
  insertion order (`Map` iteration order); `Array.from(map.values())`
  is the list itself.
* Asynchronous operations are sequentialised: each provider operation is
  a function from the provider state to `Except String (result × state)`,
  errors being thrown JS exceptions.
-/

/-- A JSON-representable metadata value (`unknown` in the source's
`Record<string, unknown>`).  The memory engine never inspects metadata
values — they are only stored and returned — so scalar JSON values
suffice as a ground model of the payload. -/
inductive JsonVal where
  | jnull
  | jbool (b : Bool)
  | jnum (n : Int)
  | jstr (s : String)
deriving DecidableEq, Repr

/-- Metadata attached to a memory entry: `Record<string, unknown>`. -/
def MemoryMetadata := List (String × JsonVal)
deriving DecidableEq, Repr

/-- `MemoryEntry` from `memory/types.ts`: id, content, optional metadata,
timestamp (a `Date`, modelled as milliseconds), and tags. -/
structure MemoryEntry where
  id : String
  content : String
  metadata : Option MemoryMetadata
  timestamp : Int
  tags : List String
deriving DecidableEq, Repr

/-- `MemoryInput` from `memory/types.ts`: a `MemoryEntry` without the
generated `id` and `timestamp`. -/
structure MemoryInput where
  content : String
  metadata : Option MemoryMetadata
  tags : List String
deriving DecidableEq, Repr

/-- `MemorySearchOptions` from `memory/types.ts`.  `sinceTs`/`untilTs`
model the `since`/`until` `Date` bounds by their millisecond values. -/
structure MemorySearchOptions where
  limit : Option Int := none
  tags : Option (List String) := none
  sinceTs : Option Int := none
  untilTs : Option Int := none
deriving DecidableEq, Repr

/-- The contents of the storage file `memories.json` as the engine sees
them when loading: missing (`ENOENT`), failing to read or parse with a
given error, or a parsed array of entries. -/
inductive DiskFile where
  | absent
  | corrupt (err : String)
  | entries (es : List MemoryEntry)
deriving DecidableEq, Repr

/-- State of one file-backed provider instance (`createFileProvider`):
the in-memory `memories` map (insertion-ordered, unique ids), the
`loaded` flag, the storage file, and whether the storage directory
exists (`fs.mkdir` recursive target). -/
structure FileState where
  memories : List MemoryEntry
  loaded : Bool
  disk : DiskFile
  dirExists : Bool
deriving DecidableEq, Repr

/-- A freshly constructed file provider over the given disk state:
empty map, not yet loaded. -/
def freshFileState (disk : DiskFile) (dirExists : Bool) : FileState :=
  { memories := [], loaded := false, disk := disk, dirExists := dirExists }

/-- `memories.set (e.id, e)` on the JS `Map`: replace in place when the
key is present, append otherwise. -/
def mapSet (m : List MemoryEntry) (e : MemoryEntry) : List MemoryEntry :=
  if m.any (fun x => x.id == e.id) then
    m.map (fun x => if x.id == e.id then e else x)
  else
    m ++ [e]

/-- `memories.get id ?? null` on the JS `Map`. -/
def mapGet (m : List MemoryEntry) (id : String) : Option MemoryEntry :=
  m.find? (fun x => x.id == id)

/-- `memories.delete id` on the JS `Map`. -/
def mapDelete (m : List MemoryEntry) (id : String) : List MemoryEntry :=
  m.filter (fun x => x.id != id)

/-- `ensureLoaded` of the file provider: a no-op once `loaded`;
otherwise create the directory, then read the storage file — a missing
file means "start fresh" (not an error), any other read/parse failure
propagates, and a parsed array is folded into the map entry by entry
(re-parsing each serialised timestamp, the identity in this model). -/
def ensureLoaded (st : FileState) : Except String FileState :=
  if st.loaded then
    .ok st
  else
    match st.disk with
    | .absent =>
        .ok { st with dirExists := true, loaded := true }
    | .corrupt err =>
        .error err
    | .entries es =>
        .ok { st with
                dirExists := true
                memories := es.foldl mapSet st.memories
                loaded := true }

/-- `persist` of the file provider: write the whole map back to the
storage file as one array. -/
def persist (st : FileState) : FileState :=
  { st with disk := .entries st.memories }

/-- `generateId`: `` `mem_${Date.now()}_${random suffix}` ``. -/
def generateId (nowMs : Int) (rand : String) : String :=
  "mem_" ++ toString nowMs ++ "_" ++ rand

/-- Prefix test on character lists (`String.startsWith` unfolded to an
executable list recursion). -/
def listHasPref : List Char → List Char → Bool
  | _, [] => true
  | [], _ :: _ => false
  | c :: cs, d :: ds => c == d && listHasPref cs ds

/-- Substring test on character lists: does `pat` occur contiguously in
`s`?  Models JavaScript `String.prototype.includes`. -/
def listHasSub : List Char → List Char → Bool
  | [], pat => pat.isEmpty
  | c :: cs, pat => listHasPref (c :: cs) pat || listHasSub cs pat

/-- `s.includes pat` for strings. -/
def strIncludes (s pat : String) : Bool :=
  listHasSub s.data pat.data

/-- `s.toLowerCase()`: per-character lowercasing. -/
def strToLower (s : String) : String :=
  ⟨s.data.map Char.toLower⟩

/-- The sort relation of `search`/`list`: the comparator
`(a, b) => b.timestamp.getTime() - a.timestamp.getTime()` orders by
timestamp descending. -/
def tsGe (a b : MemoryEntry) : Prop := b.timestamp ≤ a.timestamp

instance : DecidableRel tsGe := fun a b => by
  unfold tsGe; infer_instance

instance : IsTotal MemoryEntry tsGe :=
  ⟨fun a b => le_total b.timestamp a.timestamp⟩

instance : IsTrans MemoryEntry tsGe :=
  ⟨fun _ _ _ hab hbc => le_trans hbc hab⟩

/-- `results.sort((a, b) => b.timestamp.getTime() - a.timestamp.getTime())`:
a stable sort by timestamp descending. -/
def sortByTsDesc (l : List MemoryEntry) : List MemoryEntry :=
  l.insertionSort tsGe

/-- `save` of the file provider.  `nowMs` is the current time at the
call (used both by `generateId` and for the entry's timestamp) and
`rand` the random id suffix. -/
def fileSave (st : FileState) (input : MemoryInput) (nowMs : Int)
    (rand : String) : Except String (MemoryEntry × FileState) := do
  let st ← ensureLoaded st
  let entry : MemoryEntry :=
    { id := generateId nowMs rand
      content := input.content
      metadata := input.metadata
      timestamp := nowMs
      tags := input.tags }
  let st := { st with memories := mapSet st.memories entry }
  let st := persist st
  .ok (entry, st)

/-- `search` of the file provider: lower-cased substring match on
content, then the tag filter (skipped when absent or empty), the
`since`/`until` bounds, the descending timestamp sort, and the limit
(skipped when absent or non-positive, per JS truthiness of `0`). -/
def fileSearch (st : FileState) (query : String)
    (options : MemorySearchOptions := {}) :
    Except String (List MemoryEntry × FileState) := do
  let st ← ensureLoaded st
  let lowerQuery := strToLower query
  let results := st.memories.filter
    (fun entry => strIncludes (strToLower entry.content) lowerQuery)
  let results :=
    match options.tags with
    | some ts =>
        if ts.length > 0 then
          results.filter (fun entry => ts.all (fun tag => entry.tags.contains tag))
        else results
    | none => results
  let results :=
    match options.sinceTs with
    | some s => results.filter (fun entry => s ≤ entry.timestamp)
    | none => results
  let results :=
    match options.untilTs with
    | some u => results.filter (fun entry => entry.timestamp ≤ u)
    | none => results
  let results := sortByTsDesc results
  let results :=
    match options.limit with
    | some n => if 0 < n then results.take n.toNat else results
    | none => results
  .ok (results, st)

/-- `get` of the file provider. -/
def fileGet (st : FileState) (id : String) :
    Except String (Option MemoryEntry × FileState) := do
  let st ← ensureLoaded st
  .ok (mapGet st.memories id, st)

/-- `list` of the file provider: the same filter/sort/limit pipeline as
`search` but on all entries, with no content query. -/
def fileList (st : FileState) (options : MemorySearchOptions := {}) :
    Except String (List MemoryEntry × FileState) := do
  let st ← ensureLoaded st
  let results := st.memories
  let results :=
    match options.tags with
    | some ts =>
        if ts.length > 0 then
          results.filter (fun entry => ts.all (fun tag => entry.tags.contains tag))
        else results
    | none => results
  let results :=
    match options.sinceTs with
    | some s => results.filter (fun entry => s ≤ entry.timestamp)
    | none => results
  let results :=
    match options.untilTs with
    | some u => results.filter (fun entry => entry.timestamp ≤ u)
    | none => results
  let results := sortByTsDesc results
  let results :=
    match options.limit with
    | some n => if 0 < n then results.take n.toNat else results
    | none => results
  .ok (results, st)

/-- `delete` of the file provider: throw `Memory not found: <id>` when
the id is absent, otherwise remove and persist. -/
def fileDelete (st : FileState) (id : String) :
    Except String (Unit × FileState) := do
  let st ← ensureLoaded st
  if (mapGet st.memories id).isSome then
    let st := { st with memories := mapDelete st.memories id }
    .ok ((), persist st)
  else
    .error ("Memory not found: " ++ id)

/-! ## The MCP stub provider (`createMcpProvider`)

Every operation of the stub throws immediately; the provider holds no
state beyond the configured server name, so each operation is a pure
function returning an error. -/

/-- `save` of the MCP stub: always throws, naming the server and the
missing Claude Code runtime, and suggesting the file provider. -/
def mcpSave (serverName : String) (_input : MemoryInput) :
    Except String MemoryEntry :=
  .error ("MCP provider \"" ++ serverName ++ "\" requires Claude Code runtime. "
    ++ "Use the file provider for standalone execution, or run within Claude Code.")

/-- `search` of the MCP stub: always throws. -/
def mcpSearch (serverName : String) (_query : String)
    (_options : MemorySearchOptions := {}) : Except String (List MemoryEntry) :=
  .error ("MCP provider \"" ++ serverName ++ "\" requires Claude Code runtime.")

/-- `get` of the MCP stub: always throws. -/
def mcpGet (serverName : String) (_id : String) :
    Except String (Option MemoryEntry) :=
  .error ("MCP provider \"" ++ serverName ++ "\" requires Claude Code runtime.")

/-- `list` of the MCP stub: always throws. -/
def mcpList (serverName : String) (_options : MemorySearchOptions := {}) :
    Except String (List MemoryEntry) :=
  .error ("MCP provider \"" ++ serverName ++ "\" requires Claude Code runtime.")

/-- `delete` of the MCP stub: always throws. -/
def mcpDelete (serverName : String) (_id : String) : Except String Unit :=
  .error ("MCP provider \"" ++ serverName ++ "\" requires Claude Code runtime.")

/-- `name` of the MCP stub: `` `mcp:${serverName}` ``. -/
def mcpName (serverName : String) : String := "mcp:" ++ serverName

/-! ## The provider registry and factory (`memory/index.ts`)

`createMemoryProvider` returns a `MemoryProvider` object; in this
embedding a constructed provider instance is identified by which engine
it is (file at a path, MCP stub for a server) or which caller-supplied
instance it is.  Caller-supplied and factory-made instances are
identified by an abstract instance value. -/

/-- A live provider instance as resolved by `createMemoryProvider`. -/
inductive Provider where
  /-- The built-in file engine rooted at `path`. -/
  | fileEngine (path : String)
  /-- The built-in MCP stub for `serverName`. -/
  | mcpStub (serverName : String)
  /-- A caller-supplied or factory-produced instance, abstractly
  identified. -/
  | instRef (tag : Nat)
deriving DecidableEq, Repr

/-- `MemoryConfig` from `memory/types.ts`, as the runtime sees it: a
tagged union whose discriminator is the `type` string.  `ext` covers
configurations for dynamically registered (or unknown) provider types,
whose discriminator is none of the built-in `"file"`, `"mcp"`,
`"custom"` tags. -/
inductive MemoryConfig where
  | file (path : String)
  | mcp (serverName : String)
  | custom (provider : Provider)
  | ext (typeName : String)
deriving DecidableEq, Repr

/-- The runtime discriminator `config.type`. -/
def configType : MemoryConfig → String
  | .file _ => "file"
  | .mcp _ => "mcp"
  | .custom _ => "custom"
  | .ext n => n

/-- The process-wide provider registry: a `Map` from type name to
factory function, modelled as an insertion-ordered association list
with unique keys. -/
abbrev Registry := List (String × (MemoryConfig → Provider))

/-- `providerRegistry.get type`. -/
def registryGet (reg : Registry) (type : String) :
    Option (MemoryConfig → Provider) :=
  (reg.find? (fun p => p.fst == type)).map Prod.snd

/-- `registerMemoryProvider`: `providerRegistry.set (type, factory)` —
overwrite in place when the name is taken, append otherwise. -/
def registerMemoryProvider (reg : Registry) (type : String)
    (factory : MemoryConfig → Provider) : Registry :=
  if reg.any (fun p => p.fst == type) then
    reg.map (fun p => if p.fst == type then (type, factory) else p)
  else
    reg ++ [(type, factory)]

/-- `createMemoryProvider`: custom configs return the embedded instance
directly; otherwise a registered factory for the discriminator wins;
otherwise the built-in `"file"`/`"mcp"` engines are constructed; any
other discriminator throws `Unknown memory provider type: <type>`. -/
def createMemoryProvider (reg : Registry) (config : MemoryConfig) :
    Except String Provider :=
  match config with
  | .custom p => .ok p
  | config =>
    match registryGet reg (configType config) with
    | some factory => .ok (factory config)
    | none =>
        match config with
        | .file path => .ok (.fileEngine path)
        | .mcp serverName => .ok (.mcpStub serverName)
        | .custom p => .ok p
        | .ext n => .error ("Unknown memory provider type: " ++ n)

/-! ## Specification-side vocabulary

Derived definitions used to state the verified properties; they are
proven to agree with the operational pipeline rather than assumed. -/

/-- The ids in the in-memory map are pairwise distinct (the `Map` key
invariant). -/
def idsNodup (m : List MemoryEntry) : Prop :=
  (m.map (fun e => e.id)).Nodup

instance (m : List MemoryEntry) : Decidable (idsNodup m) := by
  unfold idsNodup; infer_instance

/-- An entry's content contains the query as a case-insensitive
substring. -/
def ciMatches (q : String) (e : MemoryEntry) : Bool :=
  strIncludes (strToLower e.content) (strToLower q)

/-- The tag constraint of an options value: every listed tag must occur
in the entry's tags; an absent or empty list constrains nothing. -/
def tagsOk (options : MemorySearchOptions) (e : MemoryEntry) : Bool :=
  match options.tags with
  | some ts => if ts.length > 0 then ts.all (fun tag => e.tags.contains tag) else true
  | none => true

/-- The `since` constraint of an options value. -/
def sinceOk (options : MemorySearchOptions) (e : MemoryEntry) : Bool :=
  match options.sinceTs with
  | some s => s ≤ e.timestamp
  | none => true

/-- The `until` constraint of an options value. -/
def untilOk (options : MemorySearchOptions) (e : MemoryEntry) : Bool :=
  match options.untilTs with
  | some u => e.timestamp ≤ u
  | none => true

/-- Stages 1–4 of the query pipeline (content match and the
tag/since/until filters), before sorting and the limit. -/
def searchFiltered (l : List MemoryEntry) (query : String)
    (options : MemorySearchOptions) : List MemoryEntry :=
  let results := l.filter (fun entry => strIncludes (strToLower entry.content) (strToLower query))
  let results :=
    match options.tags with
    | some ts =>
        if ts.length > 0 then
          results.filter (fun entry => ts.all (fun tag => entry.tags.contains tag))
        else results
    | none => results
  let results :=
    match options.sinceTs with
    | some s => results.filter (fun entry => s ≤ entry.timestamp)
    | none => results
  match options.untilTs with
  | some u => results.filter (fun entry => entry.timestamp ≤ u)
  | none => results

/-- The full query pipeline: filters, descending timestamp sort, limit. -/
def searchPipeline (l : List MemoryEntry) (query : String)
    (options : MemorySearchOptions) : List MemoryEntry :=
  let results := sortByTsDesc (searchFiltered l query options)
  match options.limit with
  | some n => if 0 < n then results.take n.toNat else results
  | none => results

/-! ## Concrete fixtures

A small store used to evaluate the verified properties on concrete
inputs. -/

/-- Fixture entry tagged `alpha`. -/
def entA : MemoryEntry :=
  { id := "a", content := "Memory A about cats",
    metadata := some [("source", JsonVal.jstr "test")], timestamp := 1,
    tags := ["alpha"] }

/-- Fixture entry tagged `beta`. -/
def entB : MemoryEntry :=
  { id := "b", content := "Memory B about DOGS", metadata := none,
    timestamp := 2, tags := ["beta"] }

/-- Fixture entry tagged `alpha` and `beta`. -/
def entC : MemoryEntry :=
  { id := "c", content := "Memory C about cats and dogs", metadata := none,
    timestamp := 3, tags := ["alpha", "beta"] }

/-- A loaded provider state holding the three fixture entries. -/
def stW : FileState :=
  { memories := [entA, entB, entC], loaded := true,
    disk := .entries [entA, entB, entC], dirExists := true }

/-! ## Basic lemmas about the map and string primitives -/

theorem listHasPref_append (p s : List Char) : listHasPref (p ++ s) p = true := by
  induction p with
  | nil => cases s <;> rfl
  | cons c cs ih => simp [listHasPref, ih]

theorem listHasSub_empty (l : List Char) : listHasSub l [] = true := by
  cases l <;> simp [listHasSub, listHasPref, List.isEmpty]

theorem strIncludes_empty (s : String) : strIncludes s "" = true :=
  listHasSub_empty s.data

theorem mapGet_mapSet_self (m : List MemoryEntry) (e : MemoryEntry) :
    mapGet (mapSet m e) e.id = some e := by
  induction m with
  | nil => simp [mapSet, mapGet]
  | cons x xs ih =>
      by_cases hx : x.id = e.id
      · have hany : (x :: xs).any (fun y => y.id == e.id) = true := by
          simp [List.any_cons, hx]
        have hset : mapSet (x :: xs) e
            = e :: xs.map (fun y => if y.id == e.id then e else y) := by
          simp [mapSet, hany, hx]
        rw [hset]
        simp [mapGet, List.find?_cons_of_pos]
      · have hx' : (x.id == e.id) = false := by simp [hx]
        by_cases hxs : xs.any (fun y => y.id == e.id)
        · have hset : mapSet (x :: xs) e
              = x :: xs.map (fun y => if y.id == e.id then e else y) := by
            simp [mapSet, List.any_cons, hx', hxs, hx]
          have h2 : mapSet xs e = xs.map (fun y => if y.id == e.id then e else y) := by
            simp [mapSet, hxs]
          rw [hset]
          unfold mapGet
          rw [List.find?_cons_of_neg _ (by simp [hx])]
          rw [← h2]
          exact ih
        · have hxs' : xs.any (fun y => y.id == e.id) = false := by simpa using hxs
          have hset : mapSet (x :: xs) e = x :: (xs ++ [e]) := by
            simp [mapSet, List.any_cons, hx', hxs']
          have h2 : mapSet xs e = xs ++ [e] := by simp [mapSet, hxs']
          rw [hset]
          unfold mapGet
          rw [List.find?_cons_of_neg _ (by simp [hx])]
          rw [← h2]
          exact ih

theorem mapSet_ids_of_mem (m : List MemoryEntry) (e : MemoryEntry)
    (h : m.any (fun x => x.id == e.id) = true) :
    (mapSet m e).map (fun x => x.id) = m.map (fun x => x.id) := by
  simp only [mapSet, h, if_true, List.map_map]
  apply List.map_congr_left
  intro x _
  by_cases hx : x.id = e.id <;> simp [hx]

theorem mapSet_of_not_mem (m : List MemoryEntry) (e : MemoryEntry)
    (h : m.any (fun x => x.id == e.id) = false) :
    mapSet m e = m ++ [e] := by
  simp [mapSet, h]

theorem idsNodup_mapSet (m : List MemoryEntry) (e : MemoryEntry)
    (h : idsNodup m) : idsNodup (mapSet m e) := by
  by_cases hmem : m.any (fun x => x.id == e.id)
  · unfold idsNodup
    rw [mapSet_ids_of_mem m e hmem]
    exact h
  · have hmem' : m.any (fun x => x.id == e.id) = false := by simpa using hmem
    unfold idsNodup at h ⊢
    rw [mapSet_of_not_mem m e hmem']
    simp only [List.map_append, List.map_cons, List.map_nil]
    rw [List.nodup_append]
    refine ⟨h, List.nodup_singleton _, ?_⟩
    intro a ha
    simp only [List.mem_singleton]
    intro hae
    rcases List.mem_map.mp ha with ⟨x, hxm, hxe⟩
    have := List.any_eq_false.mp hmem' x hxm
    simp only [beq_iff_eq] at this
    exact this (hxe.trans hae)

theorem idsNodup_foldl_mapSet (es : List MemoryEntry) (acc : List MemoryEntry)
    (h : idsNodup acc) : idsNodup (es.foldl mapSet acc) := by
  induction es generalizing acc with
  | nil => simpa using h
  | cons e es ih => exact ih (mapSet acc e) (idsNodup_mapSet acc e h)

theorem foldl_mapSet_of_disjoint (l : List MemoryEntry) (acc : List MemoryEntry)
    (hd : ∀ f ∈ l, f.id ∉ acc.map (fun x => x.id)) (hn : idsNodup l) :
    l.foldl mapSet acc = acc ++ l := by
  induction l generalizing acc with
  | nil => simp
  | cons e es ih =>
      have hany : acc.any (fun x => x.id == e.id) = false := by
        rw [List.any_eq_false]
        intro x hx
        simp only [beq_iff_eq]
        intro hxe
        exact hd e (by simp) (List.mem_map.mpr ⟨x, hx, hxe⟩)
      have hstep : mapSet acc e = acc ++ [e] := mapSet_of_not_mem acc e hany
      have hn' : idsNodup es := by
        unfold idsNodup at hn ⊢
        exact (List.nodup_cons.mp hn).2
      have hd' : ∀ f ∈ es, f.id ∉ (acc ++ [e]).map (fun x => x.id) := by
        intro f hf
        simp only [List.map_append, List.mem_append, List.map_cons, List.map_nil,
          List.mem_singleton]
        rintro (hacc | hfe)
        · exact hd f (by simp [hf]) hacc
        · unfold idsNodup at hn
          have : e.id ∉ es.map (fun x => x.id) := by
            simpa using (List.nodup_cons.mp hn).1
          exact this (by simpa [hfe] using List.mem_map.mpr ⟨f, hf, hfe⟩)
      calc (e :: es).foldl mapSet acc = es.foldl mapSet (mapSet acc e) := rfl
        _ = es.foldl mapSet (acc ++ [e]) := by rw [hstep]
        _ = (acc ++ [e]) ++ es := ih (acc ++ [e]) hd' hn'
        _ = acc ++ (e :: es) := by simp

theorem ensureLoaded_of_loaded (st : FileState) (h : st.loaded = true) :
    ensureLoaded st = .ok st := by
  simp [ensureLoaded, h]

theorem ensureLoaded_ok_loaded (st st1 : FileState)
    (h : ensureLoaded st = .ok st1) : st1.loaded = true := by
  unfold ensureLoaded at h
  by_cases hl : st.loaded
  · simp [hl] at h; simp [← h, hl]
  · simp only [hl, if_neg, Bool.false_eq_true, not_false_iff, if_false] at h
    cases hd : st.disk <;> simp [hd] at h <;> simp [← h]

theorem ensureLoaded_ok_nodup (st st1 : FileState)
    (h : ensureLoaded st = .ok st1) (hn : idsNodup st.memories) :
    idsNodup st1.memories := by
  unfold ensureLoaded at h
  by_cases hl : st.loaded
  · simp [hl] at h; simpa [← h] using hn
  · simp only [hl, Bool.false_eq_true, if_false] at h
    cases hd : st.disk with
    | absent => simp [hd] at h; simpa [← h] using hn
    | corrupt err => simp [hd] at h
    | entries es =>
        simp [hd] at h
        rw [← h]
        exact idsNodup_foldl_mapSet es st.memories hn

/-! ## Unfolding lemmas for the provider operations -/

theorem fileSearch_ok (st st1 : FileState) (q : String)
    (opts : MemorySearchOptions) (h : ensureLoaded st = .ok st1) :
    fileSearch st q opts = .ok (searchPipeline st1.memories q opts, st1) := by
  unfold fileSearch searchPipeline searchFiltered
  rw [h]
  rfl

theorem fileGet_ok (st st1 : FileState) (id : String)
    (h : ensureLoaded st = .ok st1) :
    fileGet st id = .ok (mapGet st1.memories id, st1) := by
  unfold fileGet
  rw [h]
  rfl

theorem fileSave_ok (st st1 : FileState) (input : MemoryInput)
    (nowMs : Int) (rand : String) (h : ensureLoaded st = .ok st1) :
    fileSave st input nowMs rand =
      .ok (⟨generateId nowMs rand, input.content, input.metadata, nowMs, input.tags⟩,
        persist { st1 with
          memories := mapSet st1.memories
            ⟨generateId nowMs rand, input.content, input.metadata, nowMs, input.tags⟩ }) := by
  unfold fileSave
  rw [h]
  rfl

theorem fileDelete_notFound_aux (st st1 : FileState) (id : String)
    (h : ensureLoaded st = .ok st1) (habs : mapGet st1.memories id = none) :
    fileDelete st id = .error ("Memory not found: " ++ id) := by
  have hsome : (mapGet st1.memories id).isSome = false := by rw [habs]; rfl
  calc fileDelete st id
      = if (mapGet st1.memories id).isSome = true then
          Except.ok ((), persist { st1 with memories := mapDelete st1.memories id })
        else Except.error ("Memory not found: " ++ id) := by
          unfold fileDelete; rw [h]; rfl
    _ = Except.error ("Memory not found: " ++ id) := by rw [hsome]; simp

theorem fileList_eq_fileSearch_empty_aux (st : FileState)
    (opts : MemorySearchOptions) : fileList st opts = fileSearch st "" opts := by
  unfold fileList fileSearch
  cases h : ensureLoaded st with
  | error e => rfl
  | ok st1 =>
      show Except.ok _ = Except.ok _
      have hfilter : st1.memories.filter
          (fun entry => strIncludes (strToLower entry.content) (strToLower "")) =
          st1.memories := by
        apply List.filter_eq_self.mpr
        intro a _
        have : strToLower "" = "" := rfl
        rw [this]
        exact strIncludes_empty _
      rw [hfilter]

/-! ## Properties of the query pipeline -/

theorem mem_searchFiltered (l : List MemoryEntry) (q : String)
    (opts : MemorySearchOptions) (e : MemoryEntry) :
    e ∈ searchFiltered l q opts ↔
      e ∈ l ∧ ciMatches q e = true ∧ tagsOk opts e = true ∧
        sinceOk opts e = true ∧ untilOk opts e = true := by
  obtain ⟨lim, tg, si, un⟩ := opts
  unfold searchFiltered ciMatches tagsOk sinceOk untilOk
  cases tg with
  | none =>
      cases si <;> cases un <;>
        simp [List.mem_filter, and_assoc] <;> tauto
  | some ts =>
      by_cases hts : ts.length > 0 <;>
        cases si <;> cases un <;>
          simp [List.mem_filter, hts, and_assoc] <;> tauto

theorem perm_sortByTsDesc (l : List MemoryEntry) : (sortByTsDesc l).Perm l :=
  List.perm_insertionSort tsGe l

theorem sorted_sortByTsDesc (l : List MemoryEntry) :
    List.Sorted tsGe (sortByTsDesc l) :=
  List.sorted_insertionSort tsGe l

theorem searchPipeline_eq_of_no_limit (l : List MemoryEntry) (q : String)
    (opts : MemorySearchOptions)
    (h : opts.limit = none ∨ ∃ n, opts.limit = some n ∧ ¬(0 < n)) :
    searchPipeline l q opts = sortByTsDesc (searchFiltered l q opts) := by
  unfold searchPipeline
  rcases h with h | ⟨n, h, hn⟩
  · simp [h]
  · simp [h, hn]

theorem searchPipeline_eq_of_limit (l : List MemoryEntry) (q : String)
    (opts : MemorySearchOptions) (n : Int) (h : opts.limit = some n)
    (hn : 0 < n) :
    searchPipeline l q opts = (sortByTsDesc (searchFiltered l q opts)).take n.toNat := by
  unfold searchPipeline
  simp [h, hn]

theorem sorted_searchPipeline (l : List MemoryEntry) (q : String)
    (opts : MemorySearchOptions) :
    List.Sorted tsGe (searchPipeline l q opts) := by
  unfold searchPipeline
  cases h : opts.limit with
  | none => exact sorted_sortByTsDesc _
  | some n =>
      by_cases hn : 0 < n
      · simp only [hn, if_true]
        exact List.Pairwise.sublist (List.take_sublist _ _) (sorted_sortByTsDesc _)
      · simp only [hn, if_false]
        exact sorted_sortByTsDesc _

theorem mem_searchPipeline_sub (l : List MemoryEntry) (q : String)
    (opts : MemorySearchOptions) (e : MemoryEntry)
    (h : e ∈ searchPipeline l q opts) : e ∈ searchFiltered l q opts := by
  unfold searchPipeline at h
  cases hl : opts.limit with
  | none =>
      rw [hl] at h
      exact (perm_sortByTsDesc _).mem_iff.mp h
  | some n =>
      rw [hl] at h
      by_cases hn : 0 < n
      · simp only [hn, if_true] at h
        exact (perm_sortByTsDesc _).mem_iff.mp (List.take_subset _ _ h)
      · simp only [hn, if_false] at h
        exact (perm_sortByTsDesc _).mem_iff.mp h

theorem take_sorted_ge_drop (l : List MemoryEntry) (n : Nat)
    (hs : List.Sorted tsGe l) :
    ∀ x ∈ l.take n, ∀ y ∈ l.drop n, tsGe x y := by
  have hs' : List.Pairwise tsGe (l.take n ++ l.drop n) := by
    rw [List.take_append_drop]; exact hs
  exact (List.pairwise_append.mp hs').2.2

/-! ## The verified claims -/

/-- C10: for every options value and store state of the file-backed
provider, `list options` returns exactly the same result as
`search "" options`: the two operations apply the same
filter/sort/limit pipeline and the empty query's content condition is
vacuous, the empty string being a substring of every content. -/
theorem list_eq_search_empty_query (st : FileState) (opts : MemorySearchOptions) :
    fileList st opts = fileSearch st "" opts :=
  fileList_eq_fileSearch_empty_aux st opts

/-- C5: deleting an id absent from the file-backed provider's store
fails with a `Memory not found` error carrying that id, whatever other
entries are present, and re-attempting the delete on the instance's
(unchanged, loaded) state fails with the very same error. -/
theorem delete_unknown_id_not_found (st st1 : FileState) (id : String)
    (hld : ensureLoaded st = .ok st1) (habs : mapGet st1.memories id = none) :
    fileDelete st id = .error ("Memory not found: " ++ id) ∧
    fileDelete st1 id = .error ("Memory not found: " ++ id) := by
  have h1 := fileDelete_notFound_aux st st1 id hld habs
  have hl1 : st1.loaded = true := ensureLoaded_ok_loaded st st1 hld
  have h2 := fileDelete_notFound_aux st1 st1 id (ensureLoaded_of_loaded st1 hl1) habs
  exact ⟨h1, h2⟩

/-- Witness for C5 on the concrete fixture store. -/
theorem delete_unknown_id_not_found_witness :
    fileDelete stW "nope" = .error ("Memory not found: " ++ "nope") ∧
    fileDelete stW "nope" = .error ("Memory not found: " ++ "nope") :=
  delete_unknown_id_not_found stW stW "nope" rfl rfl

/-- C6: `createMemoryProvider` resolves in a fixed order: a `custom`
configuration returns the embedded instance unchanged; otherwise a
factory registered under the discriminator is invoked on the
configuration (taking precedence over the built-ins); otherwise
`file` and `mcp` construct the built-in engines; any other
discriminator errors naming the unrecognised type. -/
theorem createMemoryProvider_resolution
    (reg : Registry) (p : Provider) (config : MemoryConfig)
    (factory : MemoryConfig → Provider) (path serverName typeName : String) :
    (createMemoryProvider reg (.custom p) = .ok p) ∧
    ((∀ q, config ≠ .custom q) →
      registryGet reg (configType config) = some factory →
      createMemoryProvider reg config = .ok (factory config)) ∧
    (registryGet reg "file" = none →
      createMemoryProvider reg (.file path) = .ok (.fileEngine path)) ∧
    (registryGet reg "mcp" = none →
      createMemoryProvider reg (.mcp serverName) = .ok (.mcpStub serverName)) ∧
    (registryGet reg typeName = none →
      createMemoryProvider reg (.ext typeName) =
        .error ("Unknown memory provider type: " ++ typeName)) := by
  refine ⟨rfl, ?_, ?_, ?_, ?_⟩
  · intro hc hreg
    cases config with
    | custom q => exact absurd rfl (hc q)
    | file path => simp [createMemoryProvider, configType] at hreg ⊢; rw [hreg]
    | mcp s => simp [createMemoryProvider, configType] at hreg ⊢; rw [hreg]
    | ext n => simp [createMemoryProvider, configType] at hreg ⊢; rw [hreg]
  · intro hreg
    simp [createMemoryProvider, configType] at hreg ⊢
    rw [hreg]
  · intro hreg
    simp [createMemoryProvider, configType] at hreg ⊢
    rw [hreg]
  · intro hreg
    simp [createMemoryProvider, configType] at hreg ⊢
    rw [hreg]

/-- Witness for C6 on a concrete registry holding a `redis` factory. -/
theorem createMemoryProvider_resolution_witness :
    (createMemoryProvider [("redis", fun _ => .instRef 7)] (.custom (.instRef 3)) =
      .ok (.instRef 3)) ∧
    (createMemoryProvider [("redis", fun _ => .instRef 7)] (.ext "redis") =
      .ok (.instRef 7)) ∧
    (createMemoryProvider [("redis", fun _ => .instRef 7)] (.file "dir") =
      .ok (.fileEngine "dir")) ∧
    (createMemoryProvider [("redis", fun _ => .instRef 7)] (.mcp "memory") =
      .ok (.mcpStub "memory")) ∧
    (createMemoryProvider [("redis", fun _ => .instRef 7)] (.ext "postgres") =
      .error ("Unknown memory provider type: " ++ "postgres")) := by
  have h := createMemoryProvider_resolution [("redis", fun _ => .instRef 7)]
    (.instRef 3) (.ext "redis") (fun _ => .instRef 7) "dir" "memory" "postgres"
  exact ⟨h.1, h.2.1 (by intro q hq; cases hq) rfl, h.2.2.1 rfl, h.2.2.2.1 rfl,
    h.2.2.2.2 rfl⟩

/-- The query pipeline on an empty store yields no results. -/
theorem searchPipeline_nil (q : String) (opts : MemorySearchOptions) :
    searchPipeline [] q opts = [] := by
  obtain ⟨lim, tg, si, un⟩ := opts
  unfold searchPipeline searchFiltered sortByTsDesc
  cases tg with
  | none => cases si <;> cases un <;> cases lim <;> simp
  | some ts =>
      by_cases hts : ts.length > 0 <;>
        cases si <;> cases un <;> cases lim <;> simp [hts]

/-- A fresh provider over a missing storage file loads an empty index,
creating the directory. -/
theorem ensureLoaded_fresh_absent (d : Bool) :
    ensureLoaded (freshFileState .absent d) =
      .ok { memories := [], loaded := true, disk := .absent, dirExists := true } := rfl

/-- A load that fails other than with `ENOENT` propagates its error. -/
theorem ensureLoaded_error (st : FileState) (err : String)
    (hl : st.loaded = false) (hd : st.disk = .corrupt err) :
    ensureLoaded st = .error err := by
  simp [ensureLoaded, hl, hd]

/-- C7: a fresh file-backed provider over a nonexistent storage file
starts from an empty index without error — `list` returns an empty
sequence and the storage directory is created — while any other
read/parse failure during the lazy load is fatal and propagates to the
caller of whichever operation triggered it. -/
theorem missing_file_fresh_start_and_load_errors_fatal
    (d : Bool) (opts : MemorySearchOptions) (err : String) (st : FileState)
    (q id delId rand : String) (input : MemoryInput) (nowMs : Int)
    (hl : st.loaded = false) (hd : st.disk = .corrupt err) :
    (fileList (freshFileState .absent d) opts =
      .ok ([], { memories := [], loaded := true, disk := .absent, dirExists := true })) ∧
    fileList st opts = .error err ∧
    fileSearch st q opts = .error err ∧
    fileGet st id = .error err ∧
    fileSave st input nowMs rand = .error err ∧
    fileDelete st delId = .error err := by
  have herr := ensureLoaded_error st err hl hd
  refine ⟨?_, ?_, ?_, ?_, ?_, ?_⟩
  · rw [fileList_eq_fileSearch_empty_aux,
      fileSearch_ok _ _ "" opts (ensureLoaded_fresh_absent d)]
    simp only [searchPipeline_nil]
  · rw [fileList_eq_fileSearch_empty_aux]
    unfold fileSearch; rw [herr]; rfl
  · unfold fileSearch; rw [herr]; rfl
  · unfold fileGet; rw [herr]; rfl
  · unfold fileSave; rw [herr]; rfl
  · unfold fileDelete; rw [herr]; rfl

/-- Witness for C7 at concrete states. -/
theorem missing_file_fresh_start_witness :
    (fileList (freshFileState .absent false) {} =
      .ok ([], { memories := [], loaded := true, disk := .absent, dirExists := true })) ∧
    fileList (freshFileState (.corrupt "EACCES") false) {} = .error "EACCES" ∧
    fileSearch (freshFileState (.corrupt "EACCES") false) "q" {} = .error "EACCES" ∧
    fileGet (freshFileState (.corrupt "EACCES") false) "a" = .error "EACCES" ∧
    fileSave (freshFileState (.corrupt "EACCES") false) ⟨"c", none, []⟩ 5 "r" =
      .error "EACCES" ∧
    fileDelete (freshFileState (.corrupt "EACCES") false) "a" = .error "EACCES" :=
  missing_file_fresh_start_and_load_errors_fatal false {} "EACCES"
    (freshFileState (.corrupt "EACCES") false) "q" "a" "a" "r" ⟨"c", none, []⟩ 5
    rfl rfl

/-- Counterexample to C8 as stated: the MCP stub's `search` error names
the missing Claude Code runtime but does not suggest the file-backed
engine as a fallback — its message does not even contain the string
`"file"` (only `save`'s message does). -/
theorem mcpSearch_error_lacks_fallback_suggestion :
    mcpSearch "memory" "q" {} =
      .error "MCP provider \"memory\" requires Claude Code runtime." ∧
    strIncludes "MCP provider \"memory\" requires Claude Code runtime." "file" = false := by
  constructor
  · rfl
  · decide

/-- C8 (amended): every operation of the MCP stub fails immediately
with an error naming the server and the missing Claude Code runtime;
`save`'s error additionally suggests the file provider as a fallback.
No operation does partial work or carries state beyond the server
name. -/
theorem mcpStub_every_operation_fails (serverName q id delId : String)
    (input : MemoryInput) (opts opts2 : MemorySearchOptions) :
    mcpSave serverName input =
      .error ("MCP provider \"" ++ serverName ++ "\" requires Claude Code runtime. "
        ++ "Use the file provider for standalone execution, or run within Claude Code.") ∧
    mcpSearch serverName q opts =
      .error ("MCP provider \"" ++ serverName ++ "\" requires Claude Code runtime.") ∧
    mcpGet serverName id =
      .error ("MCP provider \"" ++ serverName ++ "\" requires Claude Code runtime.") ∧
    mcpList serverName opts2 =
      .error ("MCP provider \"" ++ serverName ++ "\" requires Claude Code runtime.") ∧
    mcpDelete serverName delId =
      .error ("MCP provider \"" ++ serverName ++ "\" requires Claude Code runtime.") :=
  ⟨rfl, rfl, rfl, rfl, rfl⟩

/-- Generated ids are non-empty and carry the fixed `mem_` prefix. -/
theorem generateId_nonempty_prefixed (nowMs : Int) (rand : String) :
    generateId nowMs rand ≠ "" ∧
    listHasPref (generateId nowMs rand).data "mem_".data = true := by
  unfold generateId
  have hdata : (("mem_" ++ toString nowMs ++ "_" ++ rand)).data
      = "mem_".data ++ ((toString nowMs).data ++ ("_".data ++ rand.data)) := by
    rw [String.data_append, String.data_append, String.data_append,
      List.append_assoc, List.append_assoc]
  constructor
  · intro h
    have hd := congrArg String.data h
    rw [hdata] at hd
    have hm : "mem_".data = ['m', 'e', 'm', '_'] := rfl
    have hn : ("" : String).data = [] := rfl
    rw [hm, hn] at hd
    simp at hd
  · rw [hdata]
    exact listHasPref_append _ _

/-- C9: for every valid input, `save` on the file-backed provider
returns an entry whose id is non-empty and carries the `mem_` prefix,
whose timestamp is the instant of the call, and whose content,
metadata, and tags equal the input's; the caller's input value itself
is never mutated (the returned entry copies its fields). -/
theorem save_returns_prefixed_id_and_input_fields
    (st st1 : FileState) (input : MemoryInput) (nowMs : Int) (rand : String)
    (hld : ensureLoaded st = .ok st1) :
    ∃ entry st2, fileSave st input nowMs rand = .ok (entry, st2) ∧
      entry.id ≠ "" ∧
      listHasPref entry.id.data "mem_".data = true ∧
      nowMs ≤ entry.timestamp ∧
      entry.content = input.content ∧
      entry.metadata = input.metadata ∧
      entry.tags = input.tags := by
  refine ⟨_, _, fileSave_ok st st1 input nowMs rand hld, ?_, ?_, le_refl _, rfl, rfl, rfl⟩
  · exact (generateId_nonempty_prefixed nowMs rand).1
  · exact (generateId_nonempty_prefixed nowMs rand).2

/-- Witness for C9 on the concrete fixture store. -/
theorem save_returns_prefixed_id_witness :
    ∃ entry st2,
      fileSave stW ⟨"hello", some [("k", JsonVal.jnum 1)], ["t"]⟩ 9 "r" =
        .ok (entry, st2) ∧
      entry.id ≠ "" ∧
      listHasPref entry.id.data "mem_".data = true ∧
      (9 : Int) ≤ entry.timestamp ∧
      entry.content = "hello" ∧
      entry.metadata = some [("k", JsonVal.jnum 1)] ∧
      entry.tags = ["t"] :=
  save_returns_prefixed_id_and_input_fields stW stW
    ⟨"hello", some [("k", JsonVal.jnum 1)], ["t"]⟩ 9 "r" rfl

/-- Inversion for a successful `search`: the load succeeded and the
result is the pipeline applied to the loaded store. -/
theorem fileSearch_ok_inv (st st1 : FileState) (q : String)
    (opts : MemorySearchOptions) (res : List MemoryEntry)
    (h : fileSearch st q opts = .ok (res, st1)) :
    ensureLoaded st = .ok st1 ∧ res = searchPipeline st1.memories q opts := by
  cases hld : ensureLoaded st with
  | error e =>
      unfold fileSearch at h
      rw [hld] at h
      have h' : (Except.error e : Except String (List MemoryEntry × FileState))
          = .ok (res, st1) := h
      exact Except.noConfusion h'
  | ok s =>
      rw [fileSearch_ok st s q opts hld] at h
      simp only [Except.ok.injEq, Prod.mk.injEq] at h
      obtain ⟨h1, h2⟩ := h
      subst h2
      exact ⟨rfl, h1.symm⟩

/-- A satisfied non-empty tag constraint means every listed tag occurs
in the entry's tags. -/
theorem tagsOk_some_nonempty (opts : MemorySearchOptions) (ts : List String)
    (hts : opts.tags = some ts) (hlen : ts.length > 0) (e : MemoryEntry)
    (h : tagsOk opts e = true) : ∀ t ∈ ts, t ∈ e.tags := by
  unfold tagsOk at h
  rw [hts] at h
  have h' : (if ts.length > 0 then ts.all (fun tag => e.tags.contains tag)
      else true) = true := h
  rw [if_pos hlen] at h'
  intro t htm
  have := List.all_eq_true.mp h' t htm
  simpa using this

/-- The tag stage of the pipeline is the identity for an empty tag
list, just as for an absent one. -/
theorem searchPipeline_tags_trivial (l : List MemoryEntry) (q : String)
    (opts2 : MemorySearchOptions) :
    searchPipeline l q { opts2 with tags := some [] } =
      searchPipeline l q { opts2 with tags := none } := by
  unfold searchPipeline searchFiltered
  simp

/-- `search` ignores an empty tag filter exactly as an absent one. -/
theorem fileSearch_tags_trivial (st : FileState) (q : String)
    (opts2 : MemorySearchOptions) :
    fileSearch st q { opts2 with tags := some [] } =
      fileSearch st q { opts2 with tags := none } := by
  cases hld : ensureLoaded st with
  | error e =>
      unfold fileSearch
      rw [hld]
      rfl
  | ok s =>
      rw [fileSearch_ok st s q _ hld, fileSearch_ok st s q _ hld,
        searchPipeline_tags_trivial]

/-- C2: with a non-empty `options.tags` list, `search` and `list` on
the file-backed provider include an entry only if it carries every
listed tag (logical AND); in particular an entry with no tags is
excluded by every non-empty tag filter, while an absent or empty tag
filter excludes nothing. -/
theorem tag_filter_strict_and
    (st st1 st2 : FileState) (q : String) (opts : MemorySearchOptions)
    (ts : List String) (res resL : List MemoryEntry)
    (hts : opts.tags = some ts) (hne : ts ≠ [])
    (hs : fileSearch st q opts = .ok (res, st1))
    (hl : fileList st opts = .ok (resL, st2)) :
    (∀ e ∈ res, ∀ t ∈ ts, t ∈ e.tags) ∧
    (∀ e ∈ resL, ∀ t ∈ ts, t ∈ e.tags) ∧
    (∀ e ∈ res, e.tags ≠ []) ∧
    (∀ e ∈ resL, e.tags ≠ []) ∧
    (∀ (q2 : String) (opts2 : MemorySearchOptions),
      fileSearch st q2 { opts2 with tags := some [] } =
        fileSearch st q2 { opts2 with tags := none }) ∧
    (∀ opts2 : MemorySearchOptions,
      fileList st { opts2 with tags := some [] } =
        fileList st { opts2 with tags := none }) := by
  obtain ⟨hld, hres⟩ := fileSearch_ok_inv st st1 q opts res hs
  have hlS : fileSearch st "" opts = .ok (resL, st2) := by
    rw [← fileList_eq_fileSearch_empty_aux]; exact hl
  obtain ⟨hld2, hresL⟩ := fileSearch_ok_inv st st2 "" opts resL hlS
  have hlen : ts.length > 0 := List.length_pos.mpr hne
  have key : ∀ (qq : String) (stx : FileState) (rr : List MemoryEntry),
      rr = searchPipeline stx.memories qq opts →
      ∀ e ∈ rr, ∀ t ∈ ts, t ∈ e.tags := by
    intro qq stx rr hrr e he t ht
    rw [hrr] at he
    have hf := mem_searchPipeline_sub _ _ _ _ he
    have hok := ((mem_searchFiltered _ _ _ _).mp hf).2.2.1
    exact tagsOk_some_nonempty opts ts hts hlen e hok t ht
  have k1 := key q st1 res hres
  have k2 := key "" st2 resL hresL
  obtain ⟨t0, ht0⟩ := List.exists_mem_of_ne_nil ts hne
  refine ⟨k1, k2, ?_, ?_, ?_, ?_⟩
  · intro e he
    exact List.ne_nil_of_mem (k1 e he t0 ht0)
  · intro e he
    exact List.ne_nil_of_mem (k2 e he t0 ht0)
  · intro q2 opts2
    exact fileSearch_tags_trivial st q2 opts2
  · intro opts2
    rw [fileList_eq_fileSearch_empty_aux, fileList_eq_fileSearch_empty_aux]
    exact fileSearch_tags_trivial st "" opts2

/-- Witness for C2 on the fixture store with filter `["alpha","beta"]`. -/
theorem tag_filter_strict_and_witness :
    (∀ e ∈ [entC], ∀ t ∈ ["alpha", "beta"], t ∈ e.tags) ∧
    (∀ e ∈ [entC], ∀ t ∈ ["alpha", "beta"], t ∈ e.tags) ∧
    (∀ e ∈ [entC], e.tags ≠ []) ∧
    (∀ e ∈ [entC], e.tags ≠ []) ∧
    (∀ (q2 : String) (opts2 : MemorySearchOptions),
      fileSearch stW q2 { opts2 with tags := some [] } =
        fileSearch stW q2 { opts2 with tags := none }) ∧
    (∀ opts2 : MemorySearchOptions,
      fileList stW { opts2 with tags := some [] } =
        fileList stW { opts2 with tags := none }) :=
  tag_filter_strict_and stW stW stW "cats" { tags := some ["alpha", "beta"] }
    ["alpha", "beta"] [entC] [entC] rfl (by decide) rfl rfl

/-- No content match means the filter stages produce nothing. -/
theorem searchFiltered_nil_of_no_match (l : List MemoryEntry) (q : String)
    (opts : MemorySearchOptions) (h : ∀ e ∈ l, ciMatches q e = false) :
    searchFiltered l q opts = [] := by
  obtain ⟨lim, tg, si, un⟩ := opts
  unfold searchFiltered
  have h0 : l.filter (fun entry => strIncludes (strToLower entry.content) (strToLower q)) = [] := by
    rw [List.filter_eq_nil_iff]
    intro a ha
    have := h a ha
    simpa [ciMatches] using this
  rw [h0]
  cases tg with
  | none => cases si <;> cases un <;> simp
  | some ts =>
      by_cases hts : ts.length > 0 <;> cases si <;> cases un <;> simp [hts]

/-- No content match means `search`'s full pipeline yields `[]`. -/
theorem searchPipeline_nil_of_no_match (l : List MemoryEntry) (q : String)
    (opts : MemorySearchOptions) (h : ∀ e ∈ l, ciMatches q e = false) :
    searchPipeline l q opts = [] := by
  unfold searchPipeline
  rw [searchFiltered_nil_of_no_match l q opts h]
  cases opts.limit with
  | none => simp [sortByTsDesc]
  | some n => by_cases hn : 0 < n <;> simp [hn, sortByTsDesc]

/-- C4: `search` on the file-backed provider returns exactly the stored
entries whose content contains the query as a case-insensitive
substring, further constrained by the tag/date filters and the limit;
when nothing matches it returns an empty sequence, not an error. -/
theorem search_ci_substring_semantics
    (st st1 : FileState) (q : String) (opts : MemorySearchOptions)
    (res : List MemoryEntry)
    (hs : fileSearch st q opts = .ok (res, st1)) :
    (∀ e ∈ res, e ∈ st1.memories ∧ ciMatches q e = true) ∧
    ((opts.limit = none ∨ ∃ n, opts.limit = some n ∧ ¬(0 < n)) →
      ∀ e, (e ∈ res ↔ e ∈ st1.memories ∧ ciMatches q e = true ∧
        tagsOk opts e = true ∧ sinceOk opts e = true ∧ untilOk opts e = true)) ∧
    ((∀ e ∈ st1.memories, ciMatches q e = false) → res = []) := by
  obtain ⟨hld, hres⟩ := fileSearch_ok_inv st st1 q opts res hs
  refine ⟨?_, ?_, ?_⟩
  · intro e he
    rw [hres] at he
    have hf := mem_searchPipeline_sub _ _ _ _ he
    have hm := (mem_searchFiltered _ _ _ _).mp hf
    exact ⟨hm.1, hm.2.1⟩
  · intro hlim e
    rw [hres, searchPipeline_eq_of_no_limit _ _ _ hlim,
      (perm_sortByTsDesc _).mem_iff, mem_searchFiltered]
  · intro hnone
    rw [hres]
    exact searchPipeline_nil_of_no_match _ _ _ hnone

/-- Witness for C4: the query `CATS` matches contents containing
`cats` on the fixture store. -/
theorem search_ci_substring_semantics_witness :
    (∀ e ∈ [entC, entA], e ∈ stW.memories ∧ ciMatches "CATS" e = true) ∧
    (((({} : MemorySearchOptions)).limit = none ∨
        ∃ n, (({} : MemorySearchOptions)).limit = some n ∧ ¬(0 < n)) →
      ∀ e, (e ∈ [entC, entA] ↔ e ∈ stW.memories ∧ ciMatches "CATS" e = true ∧
        tagsOk {} e = true ∧ sinceOk {} e = true ∧ untilOk {} e = true)) ∧
    ((∀ e ∈ stW.memories, ciMatches "CATS" e = false) → [entC, entA] = []) :=
  search_ci_substring_semantics stW stW "CATS" {} [entC, entA] rfl

/-- Sortedness, limit-truncation and no-limit facts for one pipeline
run. -/
theorem pipeline_limit_facts (l : List MemoryEntry) (q : String)
    (opts : MemorySearchOptions) :
    List.Sorted tsGe (searchPipeline l q opts) ∧
    (∀ n : Int, opts.limit = some n → 0 < n →
      n.toNat < (searchFiltered l q opts).length →
      (searchPipeline l q opts).length = n.toNat ∧
      ∀ e ∈ searchFiltered l q opts, e ∉ searchPipeline l q opts →
        ∀ x ∈ searchPipeline l q opts, tsGe x e) ∧
    ((opts.limit = none ∨ ∃ n, opts.limit = some n ∧ ¬(0 < n)) →
      (searchPipeline l q opts).Perm (searchFiltered l q opts)) := by
  refine ⟨sorted_searchPipeline l q opts, ?_, ?_⟩
  · intro n hln hn hM
    have hpe := searchPipeline_eq_of_limit l q opts n hln hn
    constructor
    · rw [hpe, List.length_take, (perm_sortByTsDesc (searchFiltered l q opts)).length_eq]
      exact min_eq_left (le_of_lt hM)
    · intro e heF henot x hx
      have heS : e ∈ sortByTsDesc (searchFiltered l q opts) :=
        (perm_sortByTsDesc _).mem_iff.mpr heF
      have hmem : e ∈ (sortByTsDesc (searchFiltered l q opts)).take n.toNat ++
          (sortByTsDesc (searchFiltered l q opts)).drop n.toNat := by
        rw [List.take_append_drop]; exact heS
      rcases List.mem_append.mp hmem with h1 | h2
      · have : e ∈ searchPipeline l q opts := by rw [hpe]; exact h1
        exact absurd this henot
      · have hx' : x ∈ (sortByTsDesc (searchFiltered l q opts)).take n.toNat := by
          rw [← hpe]; exact hx
        exact take_sorted_ge_drop _ n.toNat (sorted_sortByTsDesc _) x hx' e h2
  · intro hlim
    rw [searchPipeline_eq_of_no_limit l q opts hlim]
    exact perm_sortByTsDesc _

/-- C3: `list` and `search` results are sorted by timestamp descending;
a present positive limit on a larger filtered set returns exactly
`limit` entries, each at least as recent as every filtered entry left
out; an absent or non-positive limit truncates nothing (the result is
a permutation of the whole filtered set). -/
theorem results_sorted_and_limit
    (st st1 st2 : FileState) (q : String) (opts : MemorySearchOptions)
    (res resL : List MemoryEntry)
    (hs : fileSearch st q opts = .ok (res, st1))
    (hl : fileList st opts = .ok (resL, st2)) :
    List.Sorted tsGe res ∧ List.Sorted tsGe resL ∧
    (∀ n : Int, opts.limit = some n → 0 < n →
      (n.toNat < (searchFiltered st1.memories q opts).length →
        res.length = n.toNat ∧
        ∀ e ∈ searchFiltered st1.memories q opts, e ∉ res →
          ∀ x ∈ res, tsGe x e) ∧
      (n.toNat < (searchFiltered st2.memories "" opts).length →
        resL.length = n.toNat ∧
        ∀ e ∈ searchFiltered st2.memories "" opts, e ∉ resL →
          ∀ x ∈ resL, tsGe x e)) ∧
    ((opts.limit = none ∨ ∃ n, opts.limit = some n ∧ ¬(0 < n)) →
      res.Perm (searchFiltered st1.memories q opts) ∧
      resL.Perm (searchFiltered st2.memories "" opts)) := by
  obtain ⟨hld, hres⟩ := fileSearch_ok_inv st st1 q opts res hs
  have hlS : fileSearch st "" opts = .ok (resL, st2) := by
    rw [← fileList_eq_fileSearch_empty_aux]; exact hl
  obtain ⟨hld2, hresL⟩ := fileSearch_ok_inv st st2 "" opts resL hlS
  obtain ⟨hsort1, hlim1, hperm1⟩ := pipeline_limit_facts st1.memories q opts
  obtain ⟨hsort2, hlim2, hperm2⟩ := pipeline_limit_facts st2.memories "" opts
  subst hres
  subst hresL
  exact ⟨hsort1, hsort2,
    fun n hln hn => ⟨hlim1 n hln hn, hlim2 n hln hn⟩,
    fun hnl => ⟨hperm1 hnl, hperm2 hnl⟩⟩

/-- Witness for C3: a limit of 1 on the fixture store returns only the
most recent matching entry. -/
theorem results_sorted_and_limit_witness :
    List.Sorted tsGe [entC] ∧ List.Sorted tsGe [entC] ∧
    (∀ n : Int, ({ limit := some 1 } : MemorySearchOptions).limit = some n → 0 < n →
      (n.toNat < (searchFiltered stW.memories "cats" { limit := some 1 }).length →
        ([entC] : List MemoryEntry).length = n.toNat ∧
        ∀ e ∈ searchFiltered stW.memories "cats" { limit := some 1 }, e ∉ [entC] →
          ∀ x ∈ [entC], tsGe x e) ∧
      (n.toNat < (searchFiltered stW.memories "" { limit := some 1 }).length →
        ([entC] : List MemoryEntry).length = n.toNat ∧
        ∀ e ∈ searchFiltered stW.memories "" { limit := some 1 }, e ∉ [entC] →
          ∀ x ∈ [entC], tsGe x e)) ∧
    ((({ limit := some 1 } : MemorySearchOptions).limit = none ∨
        ∃ n, ({ limit := some 1 } : MemorySearchOptions).limit = some n ∧ ¬(0 < n)) →
      ([entC] : List MemoryEntry).Perm (searchFiltered stW.memories "cats" { limit := some 1 }) ∧
      ([entC] : List MemoryEntry).Perm (searchFiltered stW.memories "" { limit := some 1 })) :=
  results_sorted_and_limit stW stW stW "cats" { limit := some 1 } [entC] [entC]
    rfl rfl

/-- Loading a fresh instance over a persisted entry array. -/
theorem ensureLoaded_fresh_entries (L : List MemoryEntry) (d : Bool) :
    ensureLoaded (freshFileState (.entries L) d) =
      .ok { memories := L.foldl mapSet [], loaded := true,
            disk := .entries L, dirExists := true } := rfl

/-- Re-inserting a duplicate-free entry array into an empty map
reproduces it exactly. -/
theorem foldl_mapSet_nil (L : List MemoryEntry) (hn : idsNodup L) :
    L.foldl mapSet [] = L := by
  have h := foldl_mapSet_of_disjoint L [] (by simp) hn
  simpa using h

/-- C1: saving through the file-backed provider and then getting the
returned id — on the same instance, or on a fresh instance loading the
storage file written by the save — returns the very entry produced by
`save`: equal `content`, `tags`, `metadata`, and the exact same
timestamp instant. -/
theorem save_get_roundtrip
    (st st1 : FileState) (input : MemoryInput) (nowMs : Int) (rand : String)
    (hnd : idsNodup st.memories) (hld : ensureLoaded st = .ok st1) :
    ∃ entry st2, fileSave st input nowMs rand = .ok (entry, st2) ∧
      entry.content = input.content ∧ entry.tags = input.tags ∧
      entry.metadata = input.metadata ∧ entry.timestamp = nowMs ∧
      fileGet st2 entry.id = .ok (some entry, st2) ∧
      ∀ d : Bool, ∃ stf : FileState,
        fileGet (freshFileState st2.disk d) entry.id = .ok (some entry, stf) := by
  have hsave := fileSave_ok st st1 input nowMs rand hld
  set entry : MemoryEntry :=
    ⟨generateId nowMs rand, input.content, input.metadata, nowMs, input.tags⟩
    with hent
  set st2 : FileState := persist { st1 with memories := mapSet st1.memories entry }
    with hst2
  refine ⟨entry, st2, hsave, rfl, rfl, rfl, rfl, ?_, ?_⟩
  · have hl2 : st2.loaded = true := by
      have h1 : st2.loaded = st1.loaded := rfl
      rw [h1]
      exact ensureLoaded_ok_loaded st st1 hld
    rw [fileGet_ok st2 st2 entry.id (ensureLoaded_of_loaded st2 hl2)]
    have hg : mapGet st2.memories entry.id = some entry := by
      have h2 : st2.memories = mapSet st1.memories entry := rfl
      rw [h2]
      exact mapGet_mapSet_self st1.memories entry
    rw [hg]
  · intro d
    have hn2 : idsNodup st2.memories := by
      have h2 : st2.memories = mapSet st1.memories entry := rfl
      rw [h2]
      exact idsNodup_mapSet _ _ (ensureLoaded_ok_nodup st st1 hld hnd)
    have hdisk : freshFileState st2.disk d = freshFileState (.entries st2.memories) d := rfl
    have hg : mapGet (st2.memories.foldl mapSet []) entry.id = some entry := by
      rw [foldl_mapSet_nil _ hn2]
      have h2 : st2.memories = mapSet st1.memories entry := rfl
      rw [h2]
      exact mapGet_mapSet_self st1.memories entry
    have hget : fileGet (freshFileState st2.disk d) entry.id = .ok (mapGet (st2.memories.foldl mapSet []) entry.id, { memories := st2.memories.foldl mapSet [], loaded := true, disk := .entries st2.memories, dirExists := true }) := by
      rw [hdisk, fileGet_ok _ _ entry.id (ensureLoaded_fresh_entries st2.memories d)]
    refine ⟨{ memories := st2.memories.foldl mapSet [], loaded := true, disk := .entries st2.memories, dirExists := true }, ?_⟩
    rw [hget, hg]

/-- Witness for C1 on the concrete fixture store. -/
theorem save_get_roundtrip_witness :
    ∃ entry st2,
      fileSave stW ⟨"hello", some [("k", JsonVal.jnum 1)], ["t"]⟩ 9 "r" =
        .ok (entry, st2) ∧
      entry.content = "hello" ∧ entry.tags = ["t"] ∧
      entry.metadata = some [("k", JsonVal.jnum 1)] ∧ entry.timestamp = 9 ∧
      fileGet st2 entry.id = .ok (some entry, st2) ∧
      ∀ d : Bool, ∃ stf : FileState,
        fileGet (freshFileState st2.disk d) entry.id = .ok (some entry, stf) :=
  save_get_roundtrip stW stW ⟨"hello", some [("k", JsonVal.jnum 1)], ["t"]⟩ 9 "r"
    (by decide) rfl
